import Mathlib

/-!
Shallow embedding of the evaluator orchestration subsystem of the
kids-video-evaluator repository.

Embedded source files:
* `src/pipeline/evaluators/base.py` — `VideoEvaluator.sample_frames`
* `src/pipeline/evaluators/ollama_evaluator.py` — `OllamaEvaluator._create_batches`,
  `_analyze_batches`, `_build_synthesis_prompt`
* `src/pipeline/evaluators/gemini_evaluator.py` — `GeminiEvaluator._call_gemini`
  (frame loading and request-content assembly)
* `src/pipeline/cost_tracker.py` — `PRICING`, `calculate_cost`
* `src/src/evaluator.py` — `VideoEvaluator.evaluate_with_retry`

Python integers are arbitrary precision and map to `Nat`; Python lists map to
`List`; exceptions map to explicit outcome types (`Except` / dedicated
inductives).  Calls to external model services are abstracted as oracle
functions passed in as parameters, returning `Except` to model call failure.
-/

namespace KVE

/-- Outcome of `VideoEvaluator.sample_frames` in `src/pipeline/evaluators/base.py`.
A normal return is `ok`; the `raise ValueError(...)` on an unknown strategy is
`valueError`; the `ZeroDivisionError` Python raises for
`len(all_frames) / max_frames` with `max_frames = 0` is `zeroDivisionError`. -/
inductive SampleOutcome where
  | ok (frames : List String)
  | valueError (msg : String)
  | zeroDivisionError
deriving DecidableEq, Repr

/-- Fuel-driven floor of log2 on naturals (`nat_log2 n = Nat.log2 n`),
written with structural recursion so that concrete instances reduce. -/
def nat_log2_fuel : Nat → Nat → Nat
  | 0, _ => 0
  | fuel + 1, n => if 2 ≤ n then nat_log2_fuel fuel (n / 2) + 1 else 0

/-- Floor of log2 of a positive natural. -/
def nat_log2 (n : Nat) : Nat := nat_log2_fuel n n

/-- Decides `2 ^ d ≤ q` by cross-multiplied integer comparison. -/
def qle_pow2 (d : ℤ) (q : ℚ) : Bool :=
  if 0 ≤ d then decide ((2 ^ d.toNat : ℤ) * q.den ≤ q.num)
  else decide ((q.den : ℤ) ≤ q.num * 2 ^ (-d).toNat)

/-- The binary exponent of a positive rational: the unique `e` with
`2 ^ e ≤ q < 2 ^ (e + 1)`. -/
def qLog2 (q : ℚ) : ℤ :=
  let d : ℤ := (nat_log2 q.num.toNat : ℤ) - (nat_log2 q.den : ℤ)
  if qle_pow2 d q then d else d - 1

/-- Round a rational to the nearest integer, ties to even (the IEEE-754
default rounding applied to an integer target).  The half-comparisons are
done on the numerator/denominator so that concrete instances reduce. -/
def roundHalfEven (x : ℚ) : ℤ :=
  let f := ⌊x⌋
  let r := x - (f : ℚ)
  if 2 * r.num < (r.den : ℤ) then f
  else if (r.den : ℤ) < 2 * r.num then f + 1
  else if f % 2 = 0 then f else f + 1

/-- Round a non-negative rational to the nearest IEEE-754 binary64 value
(round to nearest, ties to even): scale into `[2 ^ 52, 2 ^ 53)`, round the
53-bit significand, and scale back.  The exponent range is unbounded here
(no overflow or subnormals), which agrees with binary64 for every value
arising from a realizable frame list — Python would raise `OverflowError`
only for lists of more than about `2 ^ 1024` frames. -/
def roundDouble (q : ℚ) : ℚ :=
  if q.num ≤ 0 then 0
  else
    let e := qLog2 q
    (roundHalfEven (q * (2 : ℚ) ^ (52 - e)) : ℚ) * (2 : ℚ) ^ (e - 52)

/-- The float `step = len(all_frames) / max_frames` of the `even` branch
(base.py line 111): CPython true division of two ints is the correctly
rounded binary64 value of the exact quotient. -/
def float_step (len m : Nat) : ℚ := roundDouble ((len : ℚ) / (m : ℚ))

/-- The float product `i * step` (base.py line 112).  The int `i` is
converted to binary64 exactly (`i < max_frames` is far below `2 ^ 53` for
any realizable frame list) and the multiplication rounds once. -/
def even_product (len m i : Nat) : ℚ :=
  roundDouble ((i : ℚ) * float_step len m)

/-- The selected index `int(i * step)` (base.py line 112): truncation toward
zero, which for these non-negative values is the floor. -/
def even_index (len m i : Nat) : Nat := (⌊even_product len m i⌋).toNat

/-- The full index list `[int(i * step) for i in range(max_frames)]`. -/
def even_indices (len m : Nat) : List Nat :=
  (List.range m).map (even_index len m)

/-- Embedding of `VideoEvaluator.sample_frames` (base.py lines 89-125).

Python:
  if len(all_frames) <= max_frames: return all_frames
  if sampling_strategy == "even":
      step = len(all_frames) / max_frames
      indices = [int(i * step) for i in range(max_frames)]
      return [all_frames[i] for i in indices]
  elif sampling_strategy == "first_n": return all_frames[:max_frames]
  elif sampling_strategy == "last_n":  return all_frames[-max_frames:]
  elif sampling_strategy == "all":     return all_frames
  else: raise ValueError(f"Unknown sampling strategy: ...")

`step` and `i * step` are IEEE-754 binary64 operations, modelled exactly by
`roundDouble` in `even_index` — NOT exact rational arithmetic: at 30 frames
and `max_frames = 22`, slot 11 picks `int(14.999999999999998) = 14` where
the exact floor would be 15.  Python `all_frames[-max_frames:]` with
`max_frames = 0` is `all_frames[0:]`, the whole list (that branch is only
reachable with `len(all_frames) > max_frames`). -/
def sample_frames (all_frames : List String) (sampling_strategy : String)
    (max_frames : Nat) : SampleOutcome :=
  if all_frames.length ≤ max_frames then
    SampleOutcome.ok all_frames
  else if sampling_strategy = "even" then
    if max_frames = 0 then
      SampleOutcome.zeroDivisionError
    else
      SampleOutcome.ok
        ((even_indices all_frames.length max_frames).map
          (fun idx => all_frames.getD idx ""))
  else if sampling_strategy = "first_n" then
    SampleOutcome.ok (all_frames.take max_frames)
  else if sampling_strategy = "last_n" then
    SampleOutcome.ok
      (if max_frames = 0 then all_frames
       else all_frames.drop (all_frames.length - max_frames))
  else if sampling_strategy = "all" then
    SampleOutcome.ok all_frames
  else
    SampleOutcome.valueError ("Unknown sampling strategy: " ++ sampling_strategy)

/-- Boolean test of whether a `sample_frames` outcome is the
`raise ValueError` path. -/
def is_value_error : SampleOutcome → Bool
  | SampleOutcome.valueError _ => true
  | _ => false

lemma list_map_getD_range (l : List String) :
    (List.range l.length).map (fun i => l.getD i "") = l := by
  induction l with
  | nil => simp
  | cons a t ih =>
      have : List.range (t.length + 1) =
          0 :: (List.range t.length).map Nat.succ := List.range_succ_eq_map t.length
      simp only [List.length_cons, this, List.map_cons, List.map_map]
      have htail : (List.range t.length).map ((fun i => (a :: t).getD i "") ∘ Nat.succ) = t := by
        calc (List.range t.length).map ((fun i => (a :: t).getD i "") ∘ Nat.succ)
            = (List.range t.length).map (fun i => t.getD i "") := by
              apply List.map_congr_left
              intro i _
              rfl
          _ = t := ih
      rw [htail]
      rfl

lemma nat_log2_fuel_spec : ∀ fuel n, 1 ≤ n → n ≤ fuel →
    2 ^ nat_log2_fuel fuel n ≤ n ∧ n < 2 ^ (nat_log2_fuel fuel n + 1) := by
  intro fuel
  induction fuel with
  | zero => intro n h1 h2; omega
  | succ k ih =>
      intro n h1 h2
      rw [nat_log2_fuel]
      by_cases h : 2 ≤ n
      · rw [if_pos h]
        have hrec := ih (n / 2) (by omega) (by omega)
        constructor
        · have : 2 ^ (nat_log2_fuel k (n / 2) + 1) = 2 * 2 ^ nat_log2_fuel k (n / 2) := by
            ring
          rw [this]
          omega
        · have h2' : n / 2 < 2 ^ (nat_log2_fuel k (n / 2) + 1) := hrec.2
          have : 2 ^ (nat_log2_fuel k (n / 2) + 1 + 1) =
              2 * 2 ^ (nat_log2_fuel k (n / 2) + 1) := by ring
          rw [this]
          omega
      · rw [if_neg h]
        constructor
        · simpa using h1
        · simpa using by omega

lemma nat_log2_le_self (n : Nat) (h : 1 ≤ n) : 2 ^ nat_log2 n ≤ n :=
  (nat_log2_fuel_spec n n h (le_refl n)).1

lemma nat_log2_lt (n : Nat) (h : 1 ≤ n) : n < 2 ^ (nat_log2 n + 1) :=
  (nat_log2_fuel_spec n n h (le_refl n)).2

lemma qle_pow2_sound (d : ℤ) (q : ℚ) (h : qle_pow2 d q = true) :
    (2 : ℚ) ^ d ≤ q := by
  have hden : (0 : ℚ) < (q.den : ℚ) := by
    exact_mod_cast q.den_pos
  have hq_eq : (q.num : ℚ) / (q.den : ℚ) = q := Rat.num_div_den q
  unfold qle_pow2 at h
  by_cases hd : 0 ≤ d
  · rw [if_pos hd, decide_eq_true_eq] at h
    have hd' : d = (d.toNat : ℤ) := by omega
    rw [hd', zpow_natCast]
    have hcast : ((2 ^ d.toNat * (q.den : ℤ) : ℤ) : ℚ) ≤ ((q.num : ℤ) : ℚ) := by
      exact_mod_cast h
    push_cast at hcast
    rw [← hq_eq]
    rw [le_div_iff₀ hden]
    exact hcast
  · rw [if_neg hd, decide_eq_true_eq] at h
    have hk : d = -((-d).toNat : ℤ) := by omega
    rw [hk, zpow_neg, zpow_natCast]
    have hcast : ((q.den : ℤ) : ℚ) ≤ ((q.num * 2 ^ (-d).toNat : ℤ) : ℚ) := by
      exact_mod_cast h
    push_cast at hcast
    rw [← hq_eq]
    rw [inv_le_iff_one_le_mul₀ (by positivity)]
    rw [div_mul_eq_mul_div, le_div_iff₀ hden, one_mul]
    exact hcast

lemma qLog2_le (q : ℚ) (hq : 0 < q) : (2 : ℚ) ^ qLog2 q ≤ q := by
  unfold qLog2
  by_cases h : qle_pow2 ((nat_log2 q.num.toNat : ℤ) - (nat_log2 q.den : ℤ)) q
  · rw [if_pos h]
    exact qle_pow2_sound _ q h
  · rw [if_neg h]
    have hnum : 0 < q.num := Rat.num_pos.mpr hq
    have ha : 1 ≤ q.num.toNat := by omega
    have hb : 1 ≤ q.den := q.den_pos
    set la := nat_log2 q.num.toNat with hla
    set lb := nat_log2 q.den with hlb
    have h1 : 2 ^ la ≤ q.num.toNat := nat_log2_le_self _ ha
    have h2 : q.den < 2 ^ (lb + 1) := nat_log2_lt _ hb
    have hq_eq : (q.num : ℚ) / (q.den : ℚ) = q := Rat.num_div_den q
    have hzpow : (2 : ℚ) ^ ((la : ℤ) - lb - 1) =
        ((2 ^ la : ℕ) : ℚ) / ((2 ^ (lb + 1) : ℕ) : ℚ) := by
      push_cast
      rw [← zpow_natCast (2:ℚ) la, ← zpow_natCast (2:ℚ) (lb + 1), ← zpow_sub₀ (by norm_num)]
      congr 1
      push_cast
      ring
    rw [hzpow, ← hq_eq]
    apply div_le_div₀ (by positivity) ?_ (by positivity) ?_
    · have hcast : ((2 ^ la : ℕ) : ℚ) ≤ ((q.num.toNat : ℕ) : ℚ) := by exact_mod_cast h1
      have heq : ((q.num.toNat : ℕ) : ℚ) = (q.num : ℚ) := by
        rw [show ((q.num.toNat : ℕ) : ℚ) = ((q.num.toNat : ℤ) : ℚ) from by push_cast; ring]
        rw [Int.toNat_of_nonneg hnum.le]
      calc ((2 ^ la : ℕ) : ℚ) ≤ (q.num.toNat : ℚ) := hcast
        _ = (q.num : ℚ) := heq
    · have : ((q.den : ℕ) : ℚ) ≤ ((2 ^ (lb + 1) : ℕ) : ℚ) := by exact_mod_cast h2.le
      exact this

lemma fract_lt_half_iff (r : ℚ) :
    (2 * r.num < (r.den : ℤ)) ↔ r < 1 / 2 := by
  have hden : (0 : ℤ) < (r.den : ℤ) := by exact_mod_cast r.den_pos
  have hkey : ((r.num : ℤ) : ℚ) / (((r.den : ℤ)) : ℚ) < ((1 : ℤ) : ℚ) / ((2 : ℤ) : ℚ) ↔
      r.num * 2 < 1 * (r.den : ℤ) :=
    Rat.div_lt_div_iff_mul_lt_mul hden (by norm_num : (0:ℤ) < 2)
  have hcast : (((r.num : ℤ) : ℚ) / (((r.den : ℤ)) : ℚ) < ((1 : ℤ) : ℚ) / ((2 : ℤ) : ℚ)) ↔
      r < 1 / 2 := by
    rw [show ((r.num : ℤ) : ℚ) / (((r.den : ℤ)) : ℚ) = (r.num : ℚ) / (r.den : ℚ) from by
      push_cast; ring, Rat.num_div_den]
    norm_num
  rw [← hcast, hkey]
  omega

lemma half_lt_fract_iff (r : ℚ) :
    ((r.den : ℤ) < 2 * r.num) ↔ 1 / 2 < r := by
  have hden : (0 : ℤ) < (r.den : ℤ) := by exact_mod_cast r.den_pos
  have hkey : ((1 : ℤ) : ℚ) / ((2 : ℤ) : ℚ) < ((r.num : ℤ) : ℚ) / (((r.den : ℤ)) : ℚ) ↔
      1 * (r.den : ℤ) < r.num * 2 :=
    Rat.div_lt_div_iff_mul_lt_mul (by norm_num : (0:ℤ) < 2) hden
  have hcast : (((1 : ℤ) : ℚ) / ((2 : ℤ) : ℚ) < ((r.num : ℤ) : ℚ) / (((r.den : ℤ)) : ℚ)) ↔
      1 / 2 < r := by
    rw [show ((r.num : ℤ) : ℚ) / (((r.den : ℤ)) : ℚ) = (r.num : ℚ) / (r.den : ℚ) from by
      push_cast; ring, Rat.num_div_den]
    norm_num
  rw [← hcast, hkey]
  omega

lemma roundHalfEven_bounds (x : ℚ) :
    x - 1 / 2 ≤ (roundHalfEven x : ℚ) ∧ (roundHalfEven x : ℚ) ≤ x + 1 / 2 := by
  unfold roundHalfEven
  have hfl : (⌊x⌋ : ℚ) ≤ x := Int.floor_le x
  have hfu : x < (⌊x⌋ : ℚ) + 1 := Int.lt_floor_add_one x
  have hr0 : (0 : ℚ) ≤ x - (⌊x⌋ : ℚ) := by linarith
  by_cases h1 : 2 * (x - (⌊x⌋ : ℚ)).num < ((x - (⌊x⌋ : ℚ)).den : ℤ)
  · rw [if_pos h1]
    have := (fract_lt_half_iff _).mp h1
    constructor <;> linarith
  · rw [if_neg h1]
    by_cases h2 : ((x - (⌊x⌋ : ℚ)).den : ℤ) < 2 * (x - (⌊x⌋ : ℚ)).num
    · rw [if_pos h2]
      have := (half_lt_fract_iff _).mp h2
      push_cast
      constructor <;> linarith
    · rw [if_neg h2]
      have hhalf : x - (⌊x⌋ : ℚ) = 1 / 2 := by
        have ha := (fract_lt_half_iff (x - (⌊x⌋ : ℚ))).not.mp h1
        have hb := (half_lt_fract_iff (x - (⌊x⌋ : ℚ))).not.mp h2
        push_neg at ha hb
        linarith
      by_cases h3 : ⌊x⌋ % 2 = 0
      · rw [if_pos h3]
        constructor <;> linarith
      · rw [if_neg h3]
        push_cast
        constructor <;> linarith

lemma roundHalfEven_intCast (z : ℤ) : roundHalfEven (z : ℚ) = z := by
  simp [roundHalfEven, Int.floor_intCast]

lemma roundDouble_of_nonpos (q : ℚ) (h : q ≤ 0) : roundDouble q = 0 := by
  unfold roundDouble
  rw [if_pos (Rat.num_nonpos.mpr h)]

lemma roundDouble_bounds (q : ℚ) (hq : 0 ≤ q) :
    q - q / 9007199254740992 ≤ roundDouble q ∧
    roundDouble q ≤ q + q / 9007199254740992 := by
  rcases eq_or_lt_of_le hq with h0 | hpos
  · rw [← h0, roundDouble_of_nonpos 0 (le_refl 0)]
    norm_num
  · unfold roundDouble
    rw [if_neg (by simpa [not_le] using Rat.num_pos.mpr hpos)]
    have he := qLog2_le q hpos
    set e := qLog2 q with he_def
    set x := q * (2 : ℚ) ^ (52 - e) with hx
    have hpow_pos : (0 : ℚ) < (2 : ℚ) ^ (e - 52) := zpow_pos (by norm_num) _
    have hxq : x * (2 : ℚ) ^ (e - 52) = q := by
      rw [hx, mul_assoc, ← zpow_add₀ (by norm_num : (2:ℚ) ≠ 0)]
      norm_num
    obtain ⟨hb1, hb2⟩ := roundHalfEven_bounds x
    have hup : (roundHalfEven x : ℚ) * (2 : ℚ) ^ (e - 52) ≤
        (x + 1 / 2) * (2 : ℚ) ^ (e - 52) :=
      mul_le_mul_of_nonneg_right hb2 hpow_pos.le
    have hlo : (x - 1 / 2) * (2 : ℚ) ^ (e - 52) ≤
        (roundHalfEven x : ℚ) * (2 : ℚ) ^ (e - 52) :=
      mul_le_mul_of_nonneg_right hb1 hpow_pos.le
    have herr : (1 / 2) * (2 : ℚ) ^ (e - 52) ≤ q / 9007199254740992 := by
      have hqD : q / 9007199254740992 = q * (2 : ℚ) ^ (-53 : ℤ) := by
        rw [div_eq_mul_inv]
        congr 1
        norm_num
      have hhalf : (1 / 2 : ℚ) * (2 : ℚ) ^ (e - 52) =
          (2 : ℚ) ^ e * (2 : ℚ) ^ (-53 : ℤ) := by
        rw [show (1 / 2 : ℚ) = (2 : ℚ) ^ (-1 : ℤ) from by norm_num]
        rw [← zpow_add₀ (by norm_num : (2:ℚ) ≠ 0), ← zpow_add₀ (by norm_num : (2:ℚ) ≠ 0)]
        congr 1
        ring
      rw [hqD, hhalf]
      exact mul_le_mul_of_nonneg_right he (by positivity)
    constructor
    · have : (x - 1 / 2) * (2 : ℚ) ^ (e - 52) =
          q - (1 / 2) * (2 : ℚ) ^ (e - 52) := by
        rw [sub_mul, hxq]
      linarith
    · have : (x + 1 / 2) * (2 : ℚ) ^ (e - 52) =
          q + (1 / 2) * (2 : ℚ) ^ (e - 52) := by
        rw [add_mul, hxq]
      linarith

lemma roundDouble_nonneg (q : ℚ) : 0 ≤ roundDouble q := by
  rcases le_or_lt q 0 with h | h
  · rw [roundDouble_of_nonpos q h]
  · have := (roundDouble_bounds q h.le).1
    have hq : q / 9007199254740992 < q := by
      rw [div_lt_iff₀ (by norm_num)]
      nlinarith
    linarith

lemma roundDouble_natCast (n : ℕ) (hn : n ≤ 2 ^ 52) :
    roundDouble (n : ℚ) = n := by
  rcases Nat.eq_zero_or_pos n with h0 | hpos
  · subst h0
    simpa using roundDouble_of_nonpos 0 (le_refl 0)
  · have hq : (0 : ℚ) < (n : ℚ) := by exact_mod_cast hpos
    simp only [roundDouble]
    rw [if_neg (by simp only [Rat.num_natCast, not_le]; exact_mod_cast hpos)]
    have he := qLog2_le (n : ℚ) hq
    set e := qLog2 (n : ℚ) with he_def
    have he52 : e ≤ 52 := by
      have h1 : (n : ℚ) ≤ (2 : ℚ) ^ (52 : ℤ) := by
        rw [show ((2:ℚ) ^ (52:ℤ)) = ((2 ^ 52 : ℕ) : ℚ) from by push_cast; norm_num]
        exact_mod_cast hn
      have h2 : (2 : ℚ) ^ e ≤ (2 : ℚ) ^ (52 : ℤ) := le_trans he h1
      exact (zpow_le_zpow_iff_right₀ (by norm_num : (1:ℚ) < 2)).mp h2
    obtain ⟨k, hk⟩ : ∃ k : ℕ, 52 - e = (k : ℤ) := ⟨(52 - e).toNat, by omega⟩
    have hx : (n : ℚ) * (2 : ℚ) ^ (52 - e) = (((n * 2 ^ k : ℕ) : ℤ) : ℚ) := by
      rw [hk, zpow_natCast]
      push_cast
      ring
    rw [hx, roundHalfEven_intCast]
    rw [show (e - 52 : ℤ) = -(k : ℤ) from by omega]
    rw [zpow_neg, zpow_natCast]
    push_cast
    rw [mul_assoc, mul_inv_cancel₀ (by positivity), mul_one]

end KVE

namespace KVE

lemma even_setup (len m : Nat) (h1 : 1 ≤ m) (h2 : m < len)
    (hb : len * m ≤ 2 ^ 50) :
    0 < (m : ℚ) ∧ (m : ℚ) + 1 ≤ (len : ℚ) ∧
    (len : ℚ) * (m : ℚ) ≤ 2 ^ 50 ∧ (len : ℚ) ≤ 2 ^ 50 ∧
    (m : ℚ) * ((len : ℚ) / (m : ℚ)) = (len : ℚ) ∧
    1 ≤ (len : ℚ) / (m : ℚ) ∧
    (len : ℚ) / (m : ℚ) - ((len : ℚ) / (m : ℚ)) / 9007199254740992 ≤
      float_step len m ∧
    float_step len m ≤
      (len : ℚ) / (m : ℚ) + ((len : ℚ) / (m : ℚ)) / 9007199254740992 ∧
    0 ≤ float_step len m ∧
    (m : ℚ) * float_step len m ≤
      (len : ℚ) + (len : ℚ) / 9007199254740992 := by
  have hM0 : (0 : ℚ) < (m : ℚ) := by exact_mod_cast h1
  have hML : (m : ℚ) + 1 ≤ (len : ℚ) := by exact_mod_cast h2
  have hLM : (len : ℚ) * (m : ℚ) ≤ 2 ^ 50 := by exact_mod_cast hb
  have hL0 : (0 : ℚ) < (len : ℚ) := by linarith
  have hM1 : (1 : ℚ) ≤ (m : ℚ) := by exact_mod_cast h1
  have hLle : (len : ℚ) ≤ 2 ^ 50 := by nlinarith
  have hMs₀ : (m : ℚ) * ((len : ℚ) / (m : ℚ)) = (len : ℚ) := by
    field_simp
  have hs₀0 : 0 < (len : ℚ) / (m : ℚ) := by positivity
  have hs₀1 : 1 ≤ (len : ℚ) / (m : ℚ) := by
    rw [le_div_iff₀ hM0]
    linarith
  have hs_eq : float_step len m = roundDouble ((len : ℚ) / (m : ℚ)) := rfl
  obtain ⟨hs_lo, hs_up⟩ := roundDouble_bounds ((len : ℚ) / (m : ℚ)) hs₀0.le
  rw [← hs_eq] at hs_lo hs_up
  have hs0 : 0 ≤ float_step len m := roundDouble_nonneg _
  have hMs : (m : ℚ) * float_step len m ≤
      (len : ℚ) + (len : ℚ) / 9007199254740992 := by
    have h1' : (m : ℚ) * float_step len m ≤
        (m : ℚ) * ((len : ℚ) / (m : ℚ) +
          ((len : ℚ) / (m : ℚ)) / 9007199254740992) :=
      mul_le_mul_of_nonneg_left hs_up hM0.le
    have h2' : (m : ℚ) * ((len : ℚ) / (m : ℚ) +
        ((len : ℚ) / (m : ℚ)) / 9007199254740992) =
        (len : ℚ) + (len : ℚ) / 9007199254740992 := by
      rw [mul_add, hMs₀, ← mul_div_assoc, hMs₀]
    linarith
  exact ⟨hM0, hML, hLM, hLle, hMs₀, hs₀1, hs_lo, hs_up, hs0, hMs⟩

lemma even_product_gap (len m i : Nat) (h1 : 1 ≤ m) (h2 : m < len)
    (hb : len * m ≤ 2 ^ 50) (hi : i + 1 < m) :
    even_product len m i + 1 ≤ even_product len m (i + 1) := by
  have hiM : (i : ℚ) + 2 ≤ (m : ℚ) := by exact_mod_cast hi
  obtain ⟨hM0, hML, hLM, hLle, hMs₀, hs₀1, hs_lo, hs_up, hs0, hMs⟩ :=
    even_setup len m h1 h2 hb
  set L : ℚ := (len : ℚ) with hL
  set M : ℚ := (m : ℚ) with hM
  set s₀ : ℚ := L / M with hs₀def
  set s : ℚ := float_step len m with hs
  set D : ℚ := (9007199254740992 : ℚ) with hD
  have hs₀0 : 0 < s₀ := by linarith
  have hpu := (roundDouble_bounds ((i : ℚ) * s) (by positivity)).2
  have hql := (roundDouble_bounds (((i + 1 : ℕ) : ℚ) * s) (by positivity)).1
  have hcast : ((i + 1 : ℕ) : ℚ) = (i : ℚ) + 1 := by push_cast; ring
  rw [hcast] at hql
  have hp_eq : even_product len m i = roundDouble ((i : ℚ) * s) := rfl
  have hq_eq : even_product len m (i + 1) =
      roundDouble (((i + 1 : ℕ) : ℚ) * s) := rfl
  rw [hcast] at hq_eq
  rw [hp_eq, hq_eq]
  have h_uv : 2 * ((i : ℚ) * s) + s ≤ 2 * (M * s) - 3 * s := by
    have hmul : (2 * (i : ℚ) + 1) * s ≤ (2 * M - 3) * s :=
      mul_le_mul_of_nonneg_right (by linarith) hs0
    nlinarith [hmul]
  have hMs_pos : 0 ≤ M * s := by positivity
  have hMMs : M * (M * s) ≤ L * M + L * M / D := by
    have h1' : M * (M * s) ≤ M * (L + L / D) :=
      mul_le_mul_of_nonneg_left hMs hM0.le
    have h2' : M * (L + L / D) = L * M + L * M / D := by ring
    linarith
  have hXY : s₀ - s₀ / D ≥ 1 + 2 * (M * s) / D - 3 * s / D := by
    have hmulXY : M * (1 + 2 * (M * s) / D - 3 * s / D) ≤ M * (s₀ - s₀ / D) := by
      have hrhs : M * (s₀ - s₀ / D) = L - L / D := by
        rw [mul_sub, hMs₀, ← mul_div_assoc, hMs₀]
      have hlhs : M * (1 + 2 * (M * s) / D - 3 * s / D) =
          M + 2 * (M * (M * s)) / D - 3 * (M * s) / D := by ring
      rw [hrhs, hlhs]
      rw [hD] at *
      linarith
    have := le_of_mul_le_mul_left hmulXY hM0
    linarith
  have hround_lo : (i : ℚ) * s + s - ((i : ℚ) * s + s) / D ≤
      roundDouble (((i : ℚ) + 1) * s) := by
    have : ((i : ℚ) + 1) * s = (i : ℚ) * s + s := by ring
    rw [this] at hql ⊢
    exact hql
  have hround_up : roundDouble ((i : ℚ) * s) ≤ (i : ℚ) * s + ((i : ℚ) * s) / D :=
    hpu
  rw [hD] at *
  linarith

lemma even_product_lt (len m i : Nat) (h1 : 1 ≤ m) (h2 : m < len)
    (hb : len * m ≤ 2 ^ 50) (hi : i < m) :
    even_product len m i < (len : ℚ) := by
  have hiM : (i : ℚ) + 1 ≤ (m : ℚ) := by exact_mod_cast hi
  obtain ⟨hM0, hML, hLM, hLle, hMs₀, hs₀1, hs_lo, hs_up, hs0, hMs⟩ :=
    even_setup len m h1 h2 hb
  set L : ℚ := (len : ℚ) with hL
  set M : ℚ := (m : ℚ) with hM
  set s₀ : ℚ := L / M with hs₀def
  set s : ℚ := float_step len m with hs
  set D : ℚ := (9007199254740992 : ℚ) with hD
  have hpu := (roundDouble_bounds ((i : ℚ) * s) (by positivity)).2
  have hp_eq : even_product len m i = roundDouble ((i : ℚ) * s) := rfl
  rw [hp_eq]
  have h_u : (i : ℚ) * s ≤ M * s - s := by
    have hmul : (i : ℚ) * s ≤ (M - 1) * s :=
      mul_le_mul_of_nonneg_right (by linarith) hs0
    nlinarith [hmul]
  have hs_lb : 1 - 1 / D ≤ s := by
    have : s₀ - s₀ / D ≥ 1 - 1 / D := by
      rw [hD] at *
      nlinarith
    linarith
  rw [hD] at *
  linarith

lemma even_index_zero (len m : Nat) : even_index len m 0 = 0 := by
  unfold even_index even_product
  rw [show ((0 : ℕ) : ℚ) * float_step len m = 0 from by push_cast; ring]
  rw [roundDouble_of_nonpos 0 (le_refl 0)]
  simp

lemma even_index_step (len m i : Nat) (h1 : 1 ≤ m) (h2 : m < len)
    (hb : len * m ≤ 2 ^ 50) (hi : i + 1 < m) :
    even_index len m i < even_index len m (i + 1) := by
  have hgap := even_product_gap len m i h1 h2 hb hi
  have h0 : 0 ≤ even_product len m i := roundDouble_nonneg _
  unfold even_index
  have hfloor : ⌊even_product len m i⌋ + 1 ≤ ⌊even_product len m (i + 1)⌋ := by
    apply Int.le_floor.mpr
    have hfl := Int.floor_le (even_product len m i)
    push_cast
    linarith
  have hpos : 0 ≤ ⌊even_product len m i⌋ := Int.floor_nonneg.mpr h0
  omega

lemma even_index_strict_mono (len m : Nat) (h1 : 1 ≤ m) (h2 : m < len)
    (hb : len * m ≤ 2 ^ 50) :
    ∀ i j, i < j → j < m → even_index len m i < even_index len m j := by
  intro i j hij hjm
  induction j with
  | zero => omega
  | succ k ih =>
      rcases Nat.lt_succ_iff_lt_or_eq.mp hij with h | h
      · exact lt_trans (ih h (by omega)) (even_index_step len m k h1 h2 hb hjm)
      · subst h
        exact even_index_step len m i h1 h2 hb hjm

lemma even_index_lt_len (len m i : Nat) (h1 : 1 ≤ m) (h2 : m < len)
    (hb : len * m ≤ 2 ^ 50) (hi : i < m) :
    even_index len m i < len := by
  have hlt := even_product_lt len m i h1 h2 hb hi
  unfold even_index
  have hfl : ⌊even_product len m i⌋ < (len : ℤ) := by
    rw [Int.floor_lt]
    exact_mod_cast hlt
  omega

lemma le_pow25_of_sq_le (n : Nat) (h : n * n ≤ 2 ^ 50) : n ≤ 2 ^ 25 := by
  by_contra hcon
  push_neg at hcon
  have hsq : 2 ^ 25 * 2 ^ 25 < n * n :=
    Nat.mul_lt_mul_of_lt_of_lt hcon hcon
  norm_num at hsq h
  omega

lemma even_index_self (len i : Nat) (h1 : 1 ≤ len) (hb : len ≤ 2 ^ 25)
    (hi : i < len) : even_index len len i = i := by
  have hlen0 : ((len : ℚ)) ≠ 0 := by
    have : (0 : ℚ) < (len : ℚ) := by exact_mod_cast h1
    linarith
  have hstep : float_step len len = 1 := by
    unfold float_step
    rw [div_self hlen0]
    rw [show (1 : ℚ) = ((1 : ℕ) : ℚ) from by norm_num]
    rw [roundDouble_natCast 1 (by norm_num)]
  have hi52 : i ≤ 2 ^ 52 := by
    calc i ≤ len := hi.le
      _ ≤ 2 ^ 25 := hb
      _ ≤ 2 ^ 52 := Nat.pow_le_pow_right (by norm_num) (by norm_num)
  unfold even_index even_product
  rw [hstep, mul_one, roundDouble_natCast i hi52, Int.floor_natCast]
  exact Int.toNat_natCast i

lemma even_indices_self_eq_range (len : Nat) (h1 : 1 ≤ len) (hb : len ≤ 2 ^ 25) :
    even_indices len len = List.range len := by
  unfold even_indices
  calc (List.range len).map (even_index len len)
      = (List.range len).map id :=
        List.map_congr_left
          (fun i hi => even_index_self len i h1 hb (List.mem_range.mp hi))
    _ = List.range len := List.map_id _

lemma even_indices_pairwise (len m : Nat) (h1 : 1 ≤ m) (h2 : m ≤ len)
    (hb : len * m ≤ 2 ^ 50) :
    (even_indices len m).Pairwise (· < ·) := by
  rcases eq_or_lt_of_le h2 with heq | hlt
  · subst heq
    rw [even_indices_self_eq_range m h1 (le_pow25_of_sq_le m hb)]
    exact List.pairwise_lt_range m
  · unfold even_indices
    rw [List.pairwise_map]
    apply List.Pairwise.imp_of_mem ?_ (List.pairwise_lt_range m)
    intro a b ha hbm hab
    exact even_index_strict_mono len m h1 hlt hb a b hab (List.mem_range.mp hbm)

lemma even_indices_length (len m : Nat) : (even_indices len m).length = m := by
  simp [even_indices]

lemma even_indices_headD (len m : Nat) (hm : 1 ≤ m) :
    (even_indices len m).headD 1 = 0 := by
  obtain ⟨k, rfl⟩ : ∃ k, m = k + 1 := ⟨m - 1, by omega⟩
  unfold even_indices
  rw [List.range_succ_eq_map]
  simp [even_index_zero]

lemma even_indices_lt_len (len m : Nat) (h1 : 1 ≤ m) (h2 : m ≤ len)
    (hb : len * m ≤ 2 ^ 50) :
    ∀ idx ∈ even_indices len m, idx < len := by
  intro idx hidx
  unfold even_indices at hidx
  obtain ⟨i, hi, rfl⟩ := List.mem_map.mp hidx
  have him := List.mem_range.mp hi
  rcases eq_or_lt_of_le h2 with heq | hlt
  · subst heq
    rw [even_index_self m i h1 (le_pow25_of_sq_le m hb) him]
    exact him
  · exact even_index_lt_len len m i h1 hlt hb him

/-- C2 (amended): for every frame list and every `max_frames` with
`1 ≤ max_frames ≤ len(frames)` and `len(frames) * max_frames ≤ 2 ^ 50` (any
realizable frame count), strategy `even` returns exactly the frames at the
`max_frames` indices `int(i * step)` computed in IEEE binary64 arithmetic
(`even_indices`), those indices are strictly increasing, the first selected
index is 0, and all are in range.  The indices are NOT in general the
exact-rational `floor(i * len / max_frames)` of the original claim — see the
counterexample at 30 frames, `max_frames = 22` — and `max_frames = 0` with a
non-empty frame list raises `ZeroDivisionError` instead (C10). -/
theorem even_sampling_float_spec (frames : List String) (m : Nat)
    (h1 : 1 ≤ m) (h2 : m ≤ frames.length)
    (hbound : frames.length * m ≤ 2 ^ 50) :
    sample_frames frames "even" m =
      SampleOutcome.ok
        ((even_indices frames.length m).map (fun idx => frames.getD idx "")) ∧
    (even_indices frames.length m).length = m ∧
    (even_indices frames.length m).Pairwise (· < ·) ∧
    (even_indices frames.length m).headD 1 = 0 ∧
    ∀ idx ∈ even_indices frames.length m, idx < frames.length := by
  refine ⟨?_, even_indices_length _ _,
    even_indices_pairwise _ _ h1 h2 hbound,
    even_indices_headD _ _ h1,
    even_indices_lt_len _ _ h1 h2 hbound⟩
  by_cases hle : frames.length ≤ m
  · have hm : m = frames.length := le_antisymm h2 hle
    subst hm
    unfold sample_frames
    rw [if_pos (le_refl _)]
    have hb25 : frames.length ≤ 2 ^ 25 := le_pow25_of_sq_le _ hbound
    rw [even_indices_self_eq_range frames.length h1 hb25, list_map_getD_range]
  · unfold sample_frames
    rw [if_neg hle, if_pos rfl, if_neg (by omega : ¬ m = 0)]

/-- A concrete list of 30 frame paths, for the C2 counterexample. -/
def frames30 : List String :=
  ["f00", "f01", "f02", "f03", "f04", "f05", "f06", "f07", "f08", "f09",
   "f10", "f11", "f12", "f13", "f14", "f15", "f16", "f17", "f18", "f19",
   "f20", "f21", "f22", "f23", "f24", "f25", "f26", "f27", "f28", "f29"]

set_option maxRecDepth 1000000 in
/-- C2 counterexample: 30 frames and `max_frames = 22` satisfy the claim's
hypothesis `max_frames ≤ len(frames)`, but at slot 11 the code's IEEE-double
computation `int(11 * (30 / 22)) = int(14.999999999999998)` selects index
14, while the claimed exact formula `floor(11 * 30 / 22)` gives 15:
`sample_frames` places frame "f14", not frame "f15", in slot 11. -/
theorem even_sampling_float_counterexample :
    (22 ≤ frames30.length) ∧
    even_index 30 22 11 = 14 ∧
    11 * 30 / 22 = 15 ∧
    (match sample_frames frames30 "even" 22 with
     | SampleOutcome.ok l => l.getD 11 ""
     | _ => "") = "f14" ∧
    ("f14" : String) ≠ "f15" := by
  refine ⟨by decide, by with_unfolding_all rfl, by norm_num, ?_, by decide⟩
  with_unfolding_all rfl

set_option maxRecDepth 1000000 in
/-- C2 witness: the amended theorem applied at `frames = ["a","b","c"]`,
`max_frames = 2`, where the float indices are 0 and 1 (step 1.5 is exactly
representable), selecting frames "a" and "b". -/
theorem even_sampling_float_spec_witness :
    (1 ≤ 2 ∧ 2 ≤ (["a", "b", "c"] : List String).length ∧
      (["a", "b", "c"] : List String).length * 2 ≤ 2 ^ 50) ∧
    sample_frames ["a", "b", "c"] "even" 2 =
      SampleOutcome.ok
        ((even_indices 3 2).map
          (fun idx => (["a", "b", "c"] : List String).getD idx "")) ∧
    sample_frames ["a", "b", "c"] "even" 2 = SampleOutcome.ok ["a", "b"] :=
  ⟨⟨by decide, by decide, by decide⟩,
    (even_sampling_float_spec ["a", "b", "c"] 2 (by decide) (by decide)
      (by decide)).1,
    by with_unfolding_all rfl⟩

/-- C5 counterexample: with an unrecognized strategy token but
`len(frames) ≤ max_frames`, `sample_frames` hits the identity case first and
returns the frames unchanged; it does not raise the invalid-strategy error. -/
theorem unknown_strategy_identity_counterexample :
    sample_frames ["a"] "bogus" 5 = SampleOutcome.ok ["a"] ∧
    is_value_error (sample_frames ["a"] "bogus" 5) = false := by
  decide

/-- C5 (amended): for every frame list and `max_frames < len(frames)`, a
strategy token that is none of `even`, `first_n`, `last_n`, `all` raises
`ValueError` (the invalid-strategy error); when `len(frames) ≤ max_frames`
the identity case returns first regardless of the token. -/
theorem unknown_strategy_value_error (frames : List String) (strategy : String)
    (max_frames : Nat) (hlen : max_frames < frames.length)
    (h1 : strategy ≠ "even") (h2 : strategy ≠ "first_n")
    (h3 : strategy ≠ "last_n") (h4 : strategy ≠ "all") :
    sample_frames frames strategy max_frames =
      SampleOutcome.valueError ("Unknown sampling strategy: " ++ strategy) := by
  unfold sample_frames
  rw [if_neg (by omega : ¬ frames.length ≤ max_frames),
    if_neg h1, if_neg h2, if_neg h3, if_neg h4]

/-- C5 witness: the amended theorem applied at a concrete unrecognized token
with more frames than `max_frames`. -/
theorem unknown_strategy_value_error_witness :
    (1 < (["a", "b"] : List String).length) ∧
    sample_frames ["a", "b"] "weird_strategy" 1 =
      SampleOutcome.valueError ("Unknown sampling strategy: weird_strategy") :=
  ⟨by decide,
    unknown_strategy_value_error ["a", "b"] "weird_strategy" 1
      (by decide) (by decide) (by decide) (by decide) (by decide)⟩

/-- C6: whenever `len(frames) ≤ max_frames`, `sample_frames` returns the
original list unchanged for every strategy token, recognized or not: the
identity case is checked before any strategy dispatch. -/
theorem identity_case_any_strategy (frames : List String) (strategy : String)
    (max_frames : Nat) (h : frames.length ≤ max_frames) :
    sample_frames frames strategy max_frames = SampleOutcome.ok frames := by
  unfold sample_frames
  rw [if_pos h]

/-- C6 witness: the identity-case theorem applied at a concrete input with an
unrecognized strategy token. -/
theorem identity_case_any_strategy_witness :
    ((["a"] : List String).length ≤ 3) ∧
    sample_frames ["a"] "no_such_strategy" 3 = SampleOutcome.ok ["a"] :=
  ⟨by decide, identity_case_any_strategy ["a"] "no_such_strategy" 3 (by decide)⟩

/-- C10: for every non-empty frame list, strategy `even` with
`max_frames = 0` reaches the unguarded division `len(all_frames) / max_frames`
and raises `ZeroDivisionError`; `max_frames ≥ 1` is a necessary precondition
of the `even` strategy. -/
theorem even_zero_division (frames : List String) (h : frames ≠ []) :
    sample_frames frames "even" 0 = SampleOutcome.zeroDivisionError := by
  have hlen : 0 < frames.length := List.length_pos.mpr h
  unfold sample_frames
  rw [if_neg (by omega : ¬ frames.length ≤ 0), if_pos rfl, if_pos rfl]

/-- C10 witness: the division-by-zero theorem applied at a concrete
one-frame list. -/
theorem even_zero_division_witness :
    ((["frame_0001.jpg"] : List String) ≠ []) ∧
    sample_frames ["frame_0001.jpg"] "even" 0 = SampleOutcome.zeroDivisionError :=
  ⟨by decide, even_zero_division ["frame_0001.jpg"] (by decide)⟩

/-- Embedding of `OllamaEvaluator._create_batches` (ollama_evaluator.py lines
241-247):

  batches = []
  for i in range(0, len(frames), self.batch_size):
      batches.append(frames[i:i + self.batch_size])
  return batches

The loop step is `batch_size`; each slice is the next `batch_size` frames.
Python raises `ValueError` for `range` with step 0; the callers always pass
`batch_size ≥ 1` (constructor default 8) and every theorem below assumes
`1 ≤ batch_size`, so the `batch_size = 0` branch here is an unused total
completion. -/
def create_batches (frames : List String) (batch_size : Nat) : List (List String) :=
  if hb : batch_size = 0 then []
  else if hf : frames = [] then []
  else frames.take batch_size :: create_batches (frames.drop batch_size) batch_size
termination_by frames.length
decreasing_by
  rw [List.length_drop]
  have := List.length_pos.mpr hf
  omega

/-- One entry of the `partial_analyses` list built by
`OllamaEvaluator._analyze_batches`: the dict
`{'batch_num': i, 'frames': batch, 'analysis': ...}`. -/
structure PartialAnalysis where
  batch_num : Nat
  frames : List String
  analysis : String
deriving DecidableEq, Repr, Inhabited

/-- The loop body of `OllamaEvaluator._analyze_batches` (lines 209-237):
`for i, batch in enumerate(batches, 1)` starting at index `i`, appending for
each batch either the vision model's analysis or, when the call raised, the
inline placeholder `f"[Batch analysis failed: {e}]"`.  The vision call
`_analyze_single_batch(batch_num, total_batches, frame_paths, ...)` is
abstracted as the oracle `vision batch_num total_batches frame_paths`. -/
def analyze_batches_from (vision : Nat → Nat → List String → Except String String)
    (total_batches : Nat) : Nat → List (List String) → List PartialAnalysis
  | _, [] => []
  | i, batch :: rest =>
    (match vision i total_batches batch with
     | Except.ok analysis =>
         ({ batch_num := i, frames := batch, analysis := analysis } : PartialAnalysis)
     | Except.error e =>
         { batch_num := i, frames := batch,
           analysis := "[Batch analysis failed: " ++ e ++ "]" }) ::
      analyze_batches_from vision total_batches (i + 1) rest

/-- Embedding of `OllamaEvaluator._analyze_batches` (lines 189-239): create
the batches, then run the enumerate-from-1 loop over them. -/
def analyze_batches (vision : Nat → Nat → List String → Except String String)
    (frames : List String) (batch_size : Nat) : List PartialAnalysis :=
  let batches := create_batches frames batch_size
  analyze_batches_from vision batches.length 1 batches

/-- Total number of batches, `len(self._create_batches(frames))`. -/
def num_batches (frames : List String) (batch_size : Nat) : Nat :=
  (create_batches frames batch_size).length

/-- The `performance_metrics.batches_processed` value assembled by
`OllamaEvaluator.evaluate` (line 181): `len(partial_analyses)`. -/
def batches_processed (vision : Nat → Nat → List String → Except String String)
    (frames : List String) (batch_size : Nat) : Nat :=
  (analyze_batches vision frames batch_size).length

/-- Header of the synthesis prompt built by
`OllamaEvaluator._build_synthesis_prompt` (lines 365-377). -/
def synthesis_header (video_id duration : String) (total_frames nbatches : Nat) :
    String :=
  "# Video Evaluation Synthesis Task\n\n" ++
  "You are synthesizing multiple partial analyses into a comprehensive content rating evaluation.\n\n" ++
  "VIDEO ID: " ++ video_id ++ "\n" ++
  "DURATION: " ++ duration ++ " seconds\n" ++
  "TOTAL FRAMES ANALYZED: " ++ toString total_frames ++ " frames across " ++
  toString nbatches ++ " batches\n\n---\n\n## PARTIAL VISUAL ANALYSES\n\n"

/-- The per-batch section appended for each `batch_data` in
`_build_synthesis_prompt` (lines 380-387):
`f"\n### Batch {batch_num} Analysis:\n{analysis}\n\n"`. -/
def batch_section (bnum : Nat) (analysis : String) : String :=
  "\n### Batch " ++ toString bnum ++ " Analysis:\n" ++ analysis ++ "\n\n"

/-- Footer of the synthesis prompt (lines 389-416), embedding the transcript
and the rubric prompt. -/
def synthesis_footer (transcript rubric_prompt : String) : String :=
  "\n---\n\n## VIDEO TRANSCRIPT\n\n" ++ transcript ++
  "\n\n---\n\n## YOUR TASK\n\n" ++
  "Using the visual analyses above AND the transcript, create a COMPREHENSIVE content rating evaluation following this rubric:\n\n" ++
  rubric_prompt ++
  "\n\n---\n\n## IMPORTANT INSTRUCTIONS\n\n" ++
  "1. **Combine visual and transcript analysis**: Use both the frame analyses above AND the transcript content\n" ++
  "2. **Follow the rubric format exactly**: Provide all sections as specified in the rubric\n" ++
  "3. **Be specific with evidence**: Reference specific batch findings and transcript quotes\n" ++
  "4. **Estimate timestamps**: Based on batch numbers and video duration, estimate timestamps for concerning content\n" ++
  "5. **Provide complete ratings**: Include all required sections, metrics, and ratings from the rubric\n" ++
  "6. **Be thorough**: This is the final evaluation - make it comprehensive and actionable\n\n" ++
  "Create the full evaluation now, following the rubric structure precisely.\n"

/-- Embedding of `OllamaEvaluator._build_synthesis_prompt` (lines 353-418):
header (with `total_frames` recomputed from the partial analyses and the
number of partial analyses), then one section appended per `batch_data` in
list order, then the footer. -/
def build_synthesis_prompt (video_id : String)
    (partial_analyses : List PartialAnalysis)
    (transcript duration rubric_prompt : String) : String :=
  let total_frames := ((partial_analyses.map (fun bd => bd.frames)).flatten).length
  let header := synthesis_header video_id duration total_frames
    partial_analyses.length
  (partial_analyses.foldl
      (fun acc bd => acc ++ batch_section bd.batch_num bd.analysis) header) ++
    synthesis_footer transcript rubric_prompt

/-- Concatenation of a list of strings in order. -/
def concat_strings : List String → String
  | [] => ""
  | s :: rest => s ++ concat_strings rest

lemma create_batches_length (frames : List String) (B : Nat) (hB : 1 ≤ B) :
    (create_batches frames B).length = (frames.length + B - 1) / B := by
  rw [create_batches, dif_neg (show ¬ B = 0 by omega)]
  by_cases hf : frames = []
  · rw [dif_pos hf]
    subst hf
    simp [Nat.div_eq_of_lt (show B - 1 < B by omega)]
  · rw [dif_neg hf]
    have hlen : 0 < frames.length := List.length_pos.mpr hf
    have ih := create_batches_length (frames.drop B) B hB
    simp only [List.length_cons, ih, List.length_drop]
    by_cases hcase : B ≤ frames.length
    · have h1 : frames.length - B + B - 1 = frames.length - 1 := by omega
      have h2 : frames.length + B - 1 = frames.length - 1 + B := by omega
      rw [h1, h2, Nat.add_div_right _ (by omega : 0 < B)]
    · have h1 : frames.length - B + B - 1 = B - 1 := by omega
      rw [h1, Nat.div_eq_of_lt (by omega : B - 1 < B)]
      have hr : (frames.length + B - 1) / B = 1 := by
        apply Nat.div_eq_of_lt_le
        · omega
        · omega
      omega
termination_by frames.length
decreasing_by
  rw [List.length_drop]
  have := List.length_pos.mpr hf
  omega

lemma create_batches_flatten (frames : List String) (B : Nat) (hB : 1 ≤ B) :
    (create_batches frames B).flatten = frames := by
  rw [create_batches, dif_neg (show ¬ B = 0 by omega)]
  by_cases hf : frames = []
  · rw [dif_pos hf]
    subst hf
    rfl
  · rw [dif_neg hf]
    rw [List.flatten_cons, create_batches_flatten (frames.drop B) B hB]
    exact List.take_append_drop B frames
termination_by frames.length
decreasing_by
  rw [List.length_drop]
  have := List.length_pos.mpr hf
  omega

lemma create_batches_size_le (frames : List String) (B : Nat) (hB : 1 ≤ B) :
    ∀ b ∈ create_batches frames B, b.length ≤ B := by
  rw [create_batches, dif_neg (show ¬ B = 0 by omega)]
  by_cases hf : frames = []
  · rw [dif_pos hf]
    intro b hb
    simp at hb
  · rw [dif_neg hf]
    intro b hb
    rcases List.mem_cons.mp hb with h | h
    · subst h
      simpa using Nat.min_le_left B frames.length
    · exact create_batches_size_le (frames.drop B) B hB b h
termination_by frames.length
decreasing_by
  rw [List.length_drop]
  have := List.length_pos.mpr hf
  omega

lemma create_batches_full_except_last (frames : List String) (B : Nat)
    (hB : 1 ≤ B) :
    ∀ i, i + 1 < (create_batches frames B).length →
      ((create_batches frames B).getD i []).length = B := by
  rw [create_batches, dif_neg (show ¬ B = 0 by omega)]
  by_cases hf : frames = []
  · rw [dif_pos hf]
    intro i hi
    simp at hi
  · rw [dif_neg hf]
    intro i hi
    cases i with
    | zero =>
        have hrest : 0 < (create_batches (frames.drop B) B).length := by
          simpa using hi
        have hdrop : frames.drop B ≠ [] := by
          intro hnil
          rw [create_batches, dif_neg (show ¬ B = 0 by omega), dif_pos hnil]
            at hrest
          simp at hrest
        have hBlt : B < frames.length := by
          have := List.length_pos.mpr hdrop
          rw [List.length_drop] at this
          omega
        rw [List.getD_cons_zero, List.length_take]
        omega
    | succ k =>
        have hk : k + 1 < (create_batches (frames.drop B) B).length := by
          simpa using hi
        rw [List.getD_cons_succ]
        exact create_batches_full_except_last (frames.drop B) B hB k hk
termination_by frames.length
decreasing_by
  all_goals
    rw [List.length_drop]
    have := List.length_pos.mpr hf
    omega

lemma analyze_batches_from_length
    (vision : Nat → Nat → List String → Except String String)
    (total : Nat) (l : List (List String)) : ∀ i,
    (analyze_batches_from vision total i l).length = l.length := by
  induction l with
  | nil => intro i; rfl
  | cons b rest ih =>
      intro i
      simp [analyze_batches_from, ih]

lemma analyze_batches_from_map_batch_num
    (vision : Nat → Nat → List String → Except String String)
    (total : Nat) (l : List (List String)) : ∀ i,
    (analyze_batches_from vision total i l).map (fun bd => bd.batch_num) =
      List.range' i l.length := by
  induction l with
  | nil => intro i; rfl
  | cons b rest ih =>
      intro i
      rcases hv : vision i total b with e | a <;>
        simp [analyze_batches_from, hv, List.range'_succ, ih]

lemma analyze_batches_from_map_frames
    (vision : Nat → Nat → List String → Except String String)
    (total : Nat) (l : List (List String)) : ∀ i,
    (analyze_batches_from vision total i l).map (fun bd => bd.frames) = l := by
  induction l with
  | nil => intro i; rfl
  | cons b rest ih =>
      intro i
      rcases hv : vision i total b with e | a <;>
        simp [analyze_batches_from, hv, ih]

lemma analyze_batches_from_getD
    (vision : Nat → Nat → List String → Except String String)
    (total : Nat) (l : List (List String)) : ∀ i k, k < l.length →
    (analyze_batches_from vision total i l).getD k default =
      (match vision (i + k) total (l.getD k []) with
       | Except.ok analysis =>
           ({ batch_num := i + k, frames := l.getD k [],
              analysis := analysis } : PartialAnalysis)
       | Except.error e =>
           { batch_num := i + k, frames := l.getD k [],
             analysis := "[Batch analysis failed: " ++ e ++ "]" }) := by
  induction l with
  | nil => intro i k hk; simp at hk
  | cons b rest ih =>
      intro i k hk
      cases k with
      | zero =>
          simp only [analyze_batches_from, List.getD_cons_zero, Nat.add_zero]
      | succ k =>
          have hk' : k < rest.length := by simpa using hk
          simp only [analyze_batches_from, List.getD_cons_succ]
          rw [ih (i + 1) k hk']
          have harith : i + 1 + k = i + (k + 1) := by omega
          rw [harith]

lemma map_getD {α β : Type} (g : α → β) (l : List α) (k : Nat)
    (hk : k < l.length) (dα : α) (dβ : β) :
    (l.map g).getD k dβ = g (l.getD k dα) := by
  induction l generalizing k with
  | nil => simp at hk
  | cons a rest ih =>
      cases k with
      | zero => rfl
      | succ k =>
          have hk' : k < rest.length := by simpa using hk
          simp only [List.map_cons, List.getD_cons_succ]
          exact ih k hk'

lemma foldl_batch_sections (l : List PartialAnalysis) : ∀ init : String,
    l.foldl (fun acc bd => acc ++ batch_section bd.batch_num bd.analysis)
        init =
      init ++ concat_strings
        (l.map (fun bd => batch_section bd.batch_num bd.analysis)) := by
  induction l with
  | nil => intro init; simp [concat_strings]
  | cons b rest ih =>
      intro init
      simp only [List.foldl_cons, List.map_cons, concat_strings, ih,
        String.append_assoc]

lemma analyze_batches_map_frames
    (vision : Nat → Nat → List String → Except String String)
    (frames : List String) (B : Nat) :
    (analyze_batches vision frames B).map (fun bd => bd.frames) =
      create_batches frames B := by
  unfold analyze_batches
  exact analyze_batches_from_map_frames vision _ _ 1

lemma analyze_batches_length
    (vision : Nat → Nat → List String → Except String String)
    (frames : List String) (B : Nat) :
    (analyze_batches vision frames B).length = num_batches frames B := by
  unfold analyze_batches num_batches
  exact analyze_batches_from_length vision _ _ 1

/-- C4: for every frame list of length N and every batch size B ≥ 1, the
local backend partitions the frames into exactly `⌈N / B⌉ = (N + B - 1) / B`
contiguous batches in order — their concatenation is the original list, every
batch except possibly the last has size exactly B, and none exceeds B — and
the synthesis prompt is the header followed by exactly that many batch
sections concatenated in strictly ascending batch-number order `1, …, ⌈N/B⌉`
followed by the footer. -/
theorem batching_and_synthesis_structure (frames : List String) (B : Nat)
    (hB : 1 ≤ B) (vision : Nat → Nat → List String → Except String String)
    (video_id transcript duration rubric_prompt : String) :
    num_batches frames B = (frames.length + B - 1) / B ∧
    (create_batches frames B).flatten = frames ∧
    (∀ i, i + 1 < num_batches frames B →
      ((create_batches frames B).getD i []).length = B) ∧
    (∀ b ∈ create_batches frames B, b.length ≤ B) ∧
    (analyze_batches vision frames B).map (fun bd => bd.batch_num) =
      List.range' 1 (num_batches frames B) ∧
    build_synthesis_prompt video_id (analyze_batches vision frames B)
        transcript duration rubric_prompt =
      synthesis_header video_id duration frames.length (num_batches frames B) ++
        concat_strings ((analyze_batches vision frames B).map
          (fun bd => batch_section bd.batch_num bd.analysis)) ++
        synthesis_footer transcript rubric_prompt := by
  refine ⟨create_batches_length frames B hB, create_batches_flatten frames B hB,
    create_batches_full_except_last frames B hB,
    create_batches_size_le frames B hB, ?_, ?_⟩
  · unfold analyze_batches num_batches
    exact analyze_batches_from_map_batch_num vision _ _ 1
  · simp only [build_synthesis_prompt, analyze_batches_map_frames,
      create_batches_flatten frames B hB, analyze_batches_length,
      foldl_batch_sections]

/-- C4 witness: the batching theorem applied at 5 concrete frames with batch
size 2, giving 3 batches and batch sections numbered 1, 2, 3. -/
theorem batching_and_synthesis_structure_witness :
    (1 ≤ 2) ∧
    num_batches ["a", "b", "c", "d", "e"] 2 =
      ((["a", "b", "c", "d", "e"] : List String).length + 2 - 1) / 2 ∧
    num_batches ["a", "b", "c", "d", "e"] 2 = 3 ∧
    (analyze_batches (fun _ _ _ => Except.ok "fine") ["a", "b", "c", "d", "e"]
        2).map (fun bd => bd.batch_num) =
      List.range' 1 (num_batches ["a", "b", "c", "d", "e"] 2) :=
  ⟨by decide,
    (batching_and_synthesis_structure ["a", "b", "c", "d", "e"] 2 (by decide)
      (fun _ _ _ => Except.ok "fine") "vid" "t" "12" "rubric").1,
    by simp [num_batches, create_batches],
    (batching_and_synthesis_structure ["a", "b", "c", "d", "e"] 2 (by decide)
      (fun _ _ _ => Except.ok "fine") "vid" "t" "12" "rubric").2.2.2.2.1⟩

/-- C1: in the local batch-synthesize backend, if the vision call for one
batch j (1-based) fails with message e, that batch's slot in the partial
analyses holds the inline placeholder `[Batch analysis failed: e]`, every
other batch whose call succeeds keeps its analysis, all batches are still
present (`batches_processed` equals the total batch count), and the synthesis
prompt still consists of one section per batch, section j holding the
placeholder. -/
theorem batch_failure_isolation
    (vision : Nat → Nat → List String → Except String String)
    (frames : List String) (B : Nat) (hB : 1 ≤ B) (j : Nat) (e : String)
    (hj1 : 1 ≤ j) (hj2 : j ≤ num_batches frames B)
    (hfail : vision j (num_batches frames B)
      ((create_batches frames B).getD (j - 1) []) = Except.error e)
    (video_id transcript duration rubric_prompt : String) :
    batches_processed vision frames B = num_batches frames B ∧
    ((analyze_batches vision frames B).getD (j - 1) default).batch_num = j ∧
    ((analyze_batches vision frames B).getD (j - 1) default).analysis =
      "[Batch analysis failed: " ++ e ++ "]" ∧
    (∀ i a, i < num_batches frames B →
      vision (i + 1) (num_batches frames B)
          ((create_batches frames B).getD i []) = Except.ok a →
      ((analyze_batches vision frames B).getD i default).analysis = a) ∧
    ((analyze_batches vision frames B).map
        (fun bd => batch_section bd.batch_num bd.analysis)).length =
      num_batches frames B ∧
    ((analyze_batches vision frames B).map
        (fun bd => batch_section bd.batch_num bd.analysis)).getD (j - 1) "" =
      batch_section j ("[Batch analysis failed: " ++ e ++ "]") ∧
    build_synthesis_prompt video_id (analyze_batches vision frames B)
        transcript duration rubric_prompt =
      synthesis_header video_id duration frames.length (num_batches frames B) ++
        concat_strings ((analyze_batches vision frames B).map
          (fun bd => batch_section bd.batch_num bd.analysis)) ++
        synthesis_footer transcript rubric_prompt := by
  have hlen : (analyze_batches vision frames B).length = num_batches frames B :=
    analyze_batches_length vision frames B
  have hjlt : j - 1 < num_batches frames B := by omega
  have hgetD : ∀ k, k < num_batches frames B →
      (analyze_batches vision frames B).getD k default =
        (match vision (1 + k) (num_batches frames B)
            ((create_batches frames B).getD k []) with
         | Except.ok analysis =>
             ({ batch_num := 1 + k, frames := (create_batches frames B).getD k [],
                analysis := analysis } : PartialAnalysis)
         | Except.error err =>
             { batch_num := 1 + k, frames := (create_batches frames B).getD k [],
               analysis := "[Batch analysis failed: " ++ err ++ "]" }) := by
    intro k hk
    unfold analyze_batches
    exact analyze_batches_from_getD vision _ _ 1 k hk
  have hone : 1 + (j - 1) = j := by omega
  have hfailslot := hgetD (j - 1) hjlt
  rw [hone, hfail] at hfailslot
  refine ⟨hlen, ?_, ?_, ?_, ?_, ?_, ?_⟩
  · rw [hfailslot]
  · rw [hfailslot]
  · intro i a hi hok
    have h := hgetD i hi
    rw [Nat.add_comm 1 i] at h
    rw [hok] at h
    rw [h]
  · rw [List.length_map, hlen]
  · have hsec := map_getD
      (fun bd : PartialAnalysis => batch_section bd.batch_num bd.analysis)
      (analyze_batches vision frames B) (j - 1) (by rw [hlen]; omega)
      default ""
    rw [hsec, hfailslot]
  · simp only [build_synthesis_prompt, analyze_batches_map_frames,
      create_batches_flatten frames B hB, analyze_batches_length,
      foldl_batch_sections]

set_option maxRecDepth 4096 in
/-- C1 witness: 22 frames, batch size 8, vision call failing on batch 2 with
message "boom": there are 3 batches, `batches_processed` is 3, slot 2 holds
the placeholder, and section 2 of the synthesis prompt is the placeholder
section. -/
theorem batch_failure_isolation_witness :
    (1 ≤ 8 ∧ 1 ≤ 2 ∧ 2 ≤ num_batches ((List.range 22).map toString) 8) ∧
    num_batches ((List.range 22).map toString) 8 = 3 ∧
    batches_processed
        (fun i _ _ => if i = 2 then Except.error "boom" else Except.ok "safe")
        ((List.range 22).map toString) 8 =
      num_batches ((List.range 22).map toString) 8 ∧
    ((analyze_batches
        (fun i _ _ => if i = 2 then Except.error "boom" else Except.ok "safe")
        ((List.range 22).map toString) 8).getD 1 default).analysis =
      "[Batch analysis failed: boom]" ∧
    ((analyze_batches
        (fun i _ _ => if i = 2 then Except.error "boom" else Except.ok "safe")
        ((List.range 22).map toString) 8).map
        (fun bd => batch_section bd.batch_num bd.analysis)).getD 1 "" =
      batch_section 2 "[Batch analysis failed: boom]" := by
  have h := batch_failure_isolation
    (fun i _ _ => if i = 2 then Except.error "boom" else Except.ok "safe")
    ((List.range 22).map toString) 8 (by decide) 2 "boom" (by decide)
    (by simp [num_batches, create_batches]) rfl
    "vid" "transcript" "60" "rubric"
  refine ⟨⟨by decide, by decide, by simp [num_batches, create_batches]⟩,
    by simp [num_batches, create_batches], h.1, ?_, ?_⟩
  · exact (h.2.2.1).trans (by decide)
  · exact (h.2.2.2.2.2.1).trans (by decide)

/-- Python exception classes relevant to
`VideoEvaluator.evaluate_with_retry` in `src/src/evaluator.py`:
`anthropic.RateLimitError` versus every other exception.  Note that
`evaluate_video` itself wraps API failures in `RuntimeError`, which falls in
the `other` class. -/
inductive PyExc where
  | rateLimit (msg : String)
  | other (msg : String)
deriving DecidableEq, Repr

/-- The loop of `evaluate_with_retry` (evaluator.py lines 158-172), from a
given attempt index.  `call a` is the outcome of the a-th
`self.evaluate_video(...)` call (0-based).  Returns the final outcome paired
with the total number of attempts made.

Python:
  for attempt in range(max_retries + 1):
      try:
          return self.evaluate_video(frame_paths, transcript, video_name)
      except anthropic.RateLimitError as e:
          if attempt < max_retries:
              ...sleep(5)...        # then continue with the next attempt
          else:
              raise RuntimeError("Claude API rate limit exceeded after all retries")
      except Exception as e:
          if attempt < max_retries:
              ...log...             # then continue with the next attempt
          else:
              raise                  # re-raise the same exception unchanged
-/
def retry_loop (call : Nat → Except PyExc String) (max_retries : Nat)
    (attempt : Nat) : Except PyExc String × Nat :=
  match call attempt with
  | Except.ok s => (Except.ok s, attempt + 1)
  | Except.error (PyExc.rateLimit _) =>
      if attempt < max_retries then
        retry_loop call max_retries (attempt + 1)
      else
        (Except.error
          (PyExc.other "Claude API rate limit exceeded after all retries"),
         attempt + 1)
  | Except.error (PyExc.other m) =>
      if attempt < max_retries then
        retry_loop call max_retries (attempt + 1)
      else
        (Except.error (PyExc.other m), attempt + 1)
termination_by max_retries + 1 - attempt

/-- Embedding of `VideoEvaluator.evaluate_with_retry` (evaluator.py lines
139-172): run the retry loop from attempt 0.  The first component is the
returned value or the exception finally raised; the second is the total
number of `evaluate_video` attempts made. -/
def evaluate_with_retry (call : Nat → Except PyExc String)
    (max_retries : Nat) : Except PyExc String × Nat :=
  retry_loop call max_retries 0

lemma retry_loop_const_error (call : Nat → Except PyExc String)
    (max_retries : Nat) (m : String) :
    ∀ fuel attempt, max_retries + 1 - attempt = fuel → attempt ≤ max_retries →
    (∀ a, attempt ≤ a → a ≤ max_retries →
      call a = Except.error (PyExc.other m)) →
    retry_loop call max_retries attempt =
      (Except.error (PyExc.other m), max_retries + 1) := by
  intro fuel
  induction fuel with
  | zero => intro attempt hf hle _; omega
  | succ k ih =>
      intro attempt hf hle hcall
      rw [retry_loop, hcall attempt (le_refl _) hle]
      dsimp only
      by_cases hlt : attempt < max_retries
      · rw [if_pos hlt]
        exact ih (attempt + 1) (by omega) (by omega)
          (fun a ha hb => hcall a (by omega) hb)
      · rw [if_neg hlt]
        have : attempt = max_retries := by omega
        rw [this]

lemma retry_loop_const_rate_limit (call : Nat → Except PyExc String)
    (max_retries : Nat) :
    ∀ fuel attempt, max_retries + 1 - attempt = fuel → attempt ≤ max_retries →
    (∀ a, attempt ≤ a → a ≤ max_retries →
      ∃ m, call a = Except.error (PyExc.rateLimit m)) →
    retry_loop call max_retries attempt =
      (Except.error
        (PyExc.other "Claude API rate limit exceeded after all retries"),
       max_retries + 1) := by
  intro fuel
  induction fuel with
  | zero => intro attempt hf hle _; omega
  | succ k ih =>
      intro attempt hf hle hcall
      obtain ⟨m, hm⟩ := hcall attempt (le_refl _) hle
      rw [retry_loop, hm]
      dsimp only
      by_cases hlt : attempt < max_retries
      · rw [if_pos hlt]
        exact ih (attempt + 1) (by omega) (by omega)
          (fun a ha hb => hcall a (by omega) hb)
      · rw [if_neg hlt]
        have : attempt = max_retries := by omega
        rw [this]

/-- C3 counterexample: with a backend whose evaluate call always fails with a
non-transient (not rate-limit) error "boom" and `max_retries = 2`,
`evaluate_with_retry` makes 3 attempts, not 1: the generic exception handler
also retries before finally re-raising, so a non-transient failure is not
re-raised immediately after the first attempt. -/
theorem non_transient_retried_counterexample :
    evaluate_with_retry (fun _ => Except.error (PyExc.other "boom")) 2 =
      (Except.error (PyExc.other "boom"), 3) ∧
    (3 : Nat) ≠ 1 := by
  constructor
  · rw [evaluate_with_retry]
    rw [retry_loop]
    rw [retry_loop]
    rw [retry_loop]
    rfl
  · decide

/-- C3 (amended): a non-transient failure is retried exactly like a transient
one: if the wrapped evaluate call fails with the same non-rate-limit error on
every attempt, `evaluate_with_retry` makes `max_retries + 1` total attempts
and only then re-raises that error itself, bare and unwrapped — not
immediately after the first attempt. -/
theorem non_transient_retried_then_reraised
    (call : Nat → Except PyExc String) (max_retries : Nat) (m : String)
    (hcall : ∀ a, a ≤ max_retries → call a = Except.error (PyExc.other m)) :
    evaluate_with_retry call max_retries =
      (Except.error (PyExc.other m), max_retries + 1) := by
  rw [evaluate_with_retry]
  exact retry_loop_const_error call max_retries m (max_retries + 1) 0 rfl
    (by omega) (fun a _ hb => hcall a hb)

/-- C3 amended-theorem witness: the always-failing non-transient backend with
`max_retries = 2` re-raises the original error after 3 attempts. -/
theorem non_transient_retried_then_reraised_witness :
    evaluate_with_retry (fun _ => Except.error (PyExc.other "bad request")) 2 =
      (Except.error (PyExc.other "bad request"), 3) :=
  non_transient_retried_then_reraised
    (fun _ => Except.error (PyExc.other "bad request")) 2 "bad request"
    (fun _ _ => rfl)

/-- C7: for every backend whose evaluate call fails with a rate-limit error
on every attempt, `evaluate_with_retry` with `max_retries` retries makes
exactly `max_retries + 1` total attempts (3 for `max_retries = 2`: 1 initial
+ 2 retries) and then raises the wrapped retry-exhaustion `RuntimeError`,
not the bare rate-limit error. -/
theorem rate_limited_retry_exhaustion
    (call : Nat → Except PyExc String) (max_retries : Nat)
    (hcall : ∀ a, a ≤ max_retries →
      ∃ m, call a = Except.error (PyExc.rateLimit m)) :
    evaluate_with_retry call max_retries =
      (Except.error
        (PyExc.other "Claude API rate limit exceeded after all retries"),
       max_retries + 1) := by
  rw [evaluate_with_retry]
  exact retry_loop_const_rate_limit call max_retries (max_retries + 1) 0 rfl
    (by omega) (fun a _ hb => hcall a hb)

/-- C7 witness: a permanently rate-limited backend with `max_retries = 2`
makes exactly 3 attempts and raises the wrapped retry-exhaustion error. -/
theorem rate_limited_retry_exhaustion_witness :
    evaluate_with_retry (fun _ => Except.error (PyExc.rateLimit "429")) 2 =
      (Except.error
        (PyExc.other "Claude API rate limit exceeded after all retries"),
       3) :=
  rate_limited_retry_exhaustion
    (fun _ => Except.error (PyExc.rateLimit "429")) 2
    (fun _ _ => Exists.intro "429" rfl)

/-- One part of the request content list assembled by
`GeminiEvaluator._call_gemini` (gemini_evaluator.py line 261:
`content = [prompt_text]; content.extend(frame_images)`). -/
inductive ContentPart where
  | text (s : String)
  | image (mime_type : String) (data : List Nat)
deriving DecidableEq, Repr

/-- A loaded frame image: the dict
`{'mime_type': 'image/jpeg', 'data': image_data}` built at lines 210-213.
Raw bytes are modelled as a list of byte values. -/
structure FrameImage where
  mime_type : String
  data : List Nat
deriving DecidableEq, Repr

/-- The frame-loading loop of `_call_gemini` (lines 204-216): for every
sampled path, open and read the file; on success append the image dict, on
failure log a warning and `continue` (the frame is skipped).  File reading is
abstracted as the oracle `read_bytes`. -/
def load_frame_images (read_bytes : String → Except String (List Nat)) :
    List String → List FrameImage
  | [] => []
  | p :: rest =>
    match read_bytes p with
    | Except.ok d =>
        { mime_type := "image/jpeg", data := d } ::
          load_frame_images read_bytes rest
    | Except.error _ => load_frame_images read_bytes rest

/-- The `prompt_text` f-string of `_call_gemini` (lines 226-258), with `n`
the number of loaded frame images. -/
def gemini_prompt_text (video_id duration : String) (n : Nat)
    (rubric_prompt transcript : String) : String :=
  "# Video Evaluation Task\n\n" ++
  "VIDEO ID: " ++ video_id ++ "\n" ++
  "DURATION: " ++ duration ++ " seconds\n" ++
  "FRAMES: " ++ toString n ++ " frames extracted at regular intervals\n\n" ++
  "## Instructions\n\n" ++
  "You are analyzing " ++ toString n ++ " frames from this video along with its transcript. These frames represent the full video at regular intervals.\n\n" ++
  "## EVALUATION RUBRIC\n\n" ++ rubric_prompt ++
  "\n\n---\n\n## VIDEO TRANSCRIPT\n\n" ++ transcript ++
  "\n\n---\n\n## Your Task\n\n" ++
  "Analyze all " ++ toString n ++ " frames shown above along with the transcript to provide a comprehensive evaluation following the rubric framework exactly.\n\n" ++
  "1. Review all frames to understand the full video content\n" ++
  "2. Analyze both visual content and transcript together\n" ++
  "3. Provide specific examples with timestamps\n" ++
  "4. Follow the rubric\x27s output format requirements precisely\n\n" ++
  "Please provide a thorough evaluation following the rubric framework.\n"

/-- Embedding of the request-content assembly of `_call_gemini` (lines
202-262): load the frame images, fail with `RuntimeError("No frames could be
loaded")` if none loaded, otherwise build the single request content list —
the prompt text first, then every loaded image — that is passed to the one
`model.generate_content(content, ...)` call. -/
def call_gemini_content (read_bytes : String → Except String (List Nat))
    (video_id : String) (frame_paths : List String)
    (transcript duration rubric_prompt : String) :
    Except String (List ContentPart) :=
  let frame_images := load_frame_images read_bytes frame_paths
  if frame_images = [] then
    Except.error "No frames could be loaded"
  else
    Except.ok
      (ContentPart.text
          (gemini_prompt_text video_id duration frame_images.length
            rubric_prompt transcript) ::
        frame_images.map (fun fi => ContentPart.image fi.mime_type fi.data))

lemma load_frame_images_all_ok (read_bytes : String → Except String (List Nat))
    (bytes : String → List Nat) :
    ∀ paths : List String,
    (∀ p ∈ paths, read_bytes p = Except.ok (bytes p)) →
    load_frame_images read_bytes paths =
      paths.map (fun p => { mime_type := "image/jpeg", data := bytes p }) := by
  intro paths
  induction paths with
  | nil => intro _; rfl
  | cons p rest ih =>
      intro h
      have hp := h p (List.mem_cons_self p rest)
      simp only [load_frame_images, hp, List.map_cons]
      rw [ih (fun q hq => h q (List.mem_cons_of_mem p hq))]

/-- C8 counterexample: with two sampled frames of which the second fails to
read, the assembled request contains only 2 parts (prompt text plus 1 image)
instead of 1 + 2: the unreadable sampled frame is dropped from the request
rather than submitted. -/
theorem gemini_dropped_frame_counterexample :
    call_gemini_content
        (fun p => if p = "f1.jpg" then Except.ok [7]
                  else Except.error "No such file or directory")
        "vid" ["f1.jpg", "f2.jpg"] "transcript" "10" "rubric" =
      Except.ok
        [ContentPart.text (gemini_prompt_text "vid" "10" 1 "rubric" "transcript"),
         ContentPart.image "image/jpeg" [7]] ∧
    ([ContentPart.text (gemini_prompt_text "vid" "10" 1 "rubric" "transcript"),
      ContentPart.image "image/jpeg" [7]] : List ContentPart).length = 2 ∧
    (2 : Nat) ≠ 1 + (["f1.jpg", "f2.jpg"] : List String).length := by
  refine ⟨rfl, rfl, by decide⟩

/-- C8 (amended): when every sampled frame's file reads successfully, all
raw frame bytes are loaded into memory before the model call and all sampled
frames are submitted together with the rubric/transcript prompt in the one
request content list, in order; a frame whose read fails is skipped with a
warning (so it is dropped from the request), and if no frame loads the call
raises instead. -/
theorem gemini_all_loaded_frames_submitted
    (read_bytes : String → Except String (List Nat))
    (bytes : String → List Nat) (frame_paths : List String)
    (video_id transcript duration rubric_prompt : String)
    (hread : ∀ p ∈ frame_paths, read_bytes p = Except.ok (bytes p))
    (hne : frame_paths ≠ []) :
    call_gemini_content read_bytes video_id frame_paths transcript duration
        rubric_prompt =
      Except.ok
        (ContentPart.text
            (gemini_prompt_text video_id duration frame_paths.length
              rubric_prompt transcript) ::
          frame_paths.map (fun p => ContentPart.image "image/jpeg" (bytes p))) := by
  have hload := load_frame_images_all_ok read_bytes bytes frame_paths hread
  simp only [call_gemini_content, hload]
  have hnil : frame_paths.map
      (fun p => ({ mime_type := "image/jpeg", data := bytes p } : FrameImage)) ≠
      [] := by
    simpa using hne
  rw [if_neg hnil]
  simp [List.map_map, Function.comp]

/-- C8 witness: the amended theorem applied at two concrete readable frame
paths: both images appear in the single request after the prompt text. -/
theorem gemini_all_loaded_frames_submitted_witness :
    ((["a.jpg", "b.jpg"] : List String) ≠ []) ∧
    call_gemini_content (fun _ => Except.ok [0]) "vid" ["a.jpg", "b.jpg"]
        "t" "9" "r" =
      Except.ok
        (ContentPart.text (gemini_prompt_text "vid" "9" 2 "r" "t") ::
          (["a.jpg", "b.jpg"] : List String).map
            (fun _ => ContentPart.image "image/jpeg" [0])) :=
  ⟨by decide,
    gemini_all_loaded_frames_submitted (fun _ => Except.ok [0]) (fun _ => [0])
      ["a.jpg", "b.jpg"] "vid" "t" "9" "r" (fun _ _ => rfl) (by decide)⟩

/-- The PRICING table of `src/pipeline/cost_tracker.py` (lines 13-42):
model identifier → (input rate, output rate) in dollars per million tokens,
in dict insertion order.  The decimal literals are modelled as exact
rationals. -/
def PRICING : List (String × ℚ × ℚ) :=
  [("claude-sonnet-4-20250514", 3, 15),
   ("claude-opus-4-5-20251101", 15, 75),
   ("claude-3-5-sonnet-20241022", 3, 15),
   ("claude-3-haiku-20240307", 1/4, 5/4),
   ("models/gemini-2.5-flash", 3/40, 3/10),
   ("models/gemini-2.5-pro", 5/4, 5),
   ("ollama", 0, 0)]

/-- Does the character list given first occur as a leading segment of the
character list given second? -/
def chars_lead : List Char → List Char → Bool
  | [], _ => true
  | _ :: _, [] => false
  | a :: xs, b :: ys => a == b && chars_lead xs ys

/-- Does `needle` occur contiguously anywhere inside `hay`?  (Python
substring containment.) -/
def chars_contain (needle : List Char) : List Char → Bool
  | [] => chars_lead needle []
  | c :: t => chars_lead needle (c :: t) || chars_contain needle t

/-- Python `sub in s` for strings. -/
def str_in (sub s : String) : Bool :=
  chars_contain sub.data s.data

/-- Embedding of `calculate_cost` (cost_tracker.py lines 45-71):

  if model_name not in PRICING:
      for key in PRICING:
          if key in model_name or model_name in key:
              model_name = key
              break
      else:
          return 0.0
  pricing = PRICING[model_name]
  return (input_tokens / 1_000_000) * pricing["input"] +
         (output_tokens / 1_000_000) * pricing["output"]
-/
def calculate_cost (model_name : String) (input_tokens output_tokens : Nat) :
    ℚ :=
  let resolved :=
    if (PRICING.find? (fun kv => kv.1 == model_name)).isSome then
      some model_name
    else
      match PRICING.find?
          (fun kv => str_in kv.1 model_name || str_in model_name kv.1) with
      | some kv => some kv.1
      | none => none
  match resolved with
  | none => 0
  | some key =>
    match PRICING.find? (fun kv => kv.1 == key) with
    | some (_, input_rate, output_rate) =>
        (input_tokens : ℚ) / 1000000 * input_rate +
          (output_tokens : ℚ) / 1000000 * output_rate
    | none => 0

/-- C9: for every model string that matches no price-table key exactly and
no key by substring in either direction, and all token counts,
`calculate_cost` returns 0.0 (and cannot raise: the embedding is a total
function whose fallback branch returns zero). -/
theorem unknown_model_zero_cost (model_name : String)
    (input_tokens output_tokens : Nat)
    (h : ∀ kv ∈ PRICING, kv.1 ≠ model_name ∧
      str_in kv.1 model_name = false ∧ str_in model_name kv.1 = false) :
    calculate_cost model_name input_tokens output_tokens = 0 := by
  have h1 : PRICING.find? (fun kv => kv.1 == model_name) = none := by
    apply List.find?_eq_none.mpr
    intro kv hkv
    simpa using (h kv hkv).1
  have h2 : PRICING.find?
      (fun kv => str_in kv.1 model_name || str_in model_name kv.1) = none := by
    apply List.find?_eq_none.mpr
    intro kv hkv
    simp [(h kv hkv).2.1, (h kv hkv).2.2]
  simp [calculate_cost, h1, h2]

/-- C9 witness: a model string unrelated to every price-table key costs
exactly zero. -/
theorem unknown_model_zero_cost_witness :
    (∀ kv ∈ PRICING, kv.1 ≠ "mystery-9000" ∧
      str_in kv.1 "mystery-9000" = false ∧
      str_in "mystery-9000" kv.1 = false) ∧
    calculate_cost "mystery-9000" 123456 7890 = 0 :=
  ⟨by decide, unknown_model_zero_cost "mystery-9000" 123456 7890 (by decide)⟩

end KVE
